import Mathlib

/-!
Verification of the core of the glenberry-sql-diagnostic-tool repository:
the resilient sequential execution engine (`src/core/ExecutionEngine.js`)
and the query-pack parsing engine (`src/core/QueryParser.js`).

The JavaScript source is shallowly embedded: stateful loops become
structural recursion with explicit accumulators, the external database
connection becomes a pure oracle function, and wall-clock readings
(`Date.now()`) are outside the model (the corresponding fields are kept
and hold the literal values the source writes on the code paths the
claims are about, namely `0` on the failure path).
-/

namespace GlenBerry

set_option maxRecDepth 100000

/-- JavaScript `x || d` for non-negative integer configuration values:
`0` (like `undefined`/`null`) is falsy and selects the default. -/
def jsOr (x d : Nat) : Nat := if x = 0 then d else x

/-!
The JS string primitives the source uses (`split('\n')`, `trim()`,
`toLowerCase()`, `startsWith`, `includes`) are modelled over the string's
character list: the core library's implementations work on UTF-8 byte
positions and do not reduce inside the kernel, so concrete packs could not
be evaluated through them.
-/

/-- Occurrence of `pat` as a contiguous run of `cs`. -/
def hasSubstring (pat : List Char) : List Char → Bool
  | [] => List.isPrefixOf pat []
  | c :: rest => List.isPrefixOf pat (c :: rest) || hasSubstring pat rest

/-- JavaScript `s.includes(pat)`. -/
def containsSubstring (s pat : String) : Bool := hasSubstring pat.data s.data

/-- JavaScript `s.trim()`: strip whitespace (spaces, tabs, line ends) from
both ends. -/
def jsTrim (s : String) : String :=
  String.mk (((s.data.dropWhile Char.isWhitespace).reverse.dropWhile Char.isWhitespace).reverse)

/-- JavaScript `s.toLowerCase()` (ASCII, which is all the rule keywords
use). -/
def jsToLower (s : String) : String := String.mk (s.data.map Char.toLower)

/-- JavaScript `s.startsWith(pat)`. -/
def jsStartsWith (s pat : String) : Bool := List.isPrefixOf pat.data s.data

/-- JavaScript `s.split('\n')`. -/
def charLines : List Char → List (List Char)
  | [] => [[]]
  | c :: cs =>
    match charLines cs with
    | [] => [[]]
    | g :: gs => if c = '\n' then [] :: g :: gs else (c :: g) :: gs

/-- The line list of a string (JS `s.split('\n')`). -/
def jsLines (s : String) : List String := (charLines s.data).map String.mk

/-- One parsed diagnostic query record, as built by
`QueryParser.parseGlenBerryQueries` and consumed by the engine. -/
structure Query where
  id : String
  name : String
  «section» : String
  description : String
  query : String
  estimatedDuration : Nat
  queryNumber : Nat
deriving Repr, DecidableEq

/-- Engine configuration (`this.config` of `ExecutionEngine`).  The numeric
fields are non-negative integers; `0` is falsy in the source's
`this.config.timeout || 30000` style defaulting. -/
structure EngineConfig where
  timeout : Nat
  maxRetries : Nat
  retryDelay : Nat
  continueOnError : Bool
deriving Repr, DecidableEq

/-- The external connection capability
(`connectionManager.executeQuery(text, timeout)`): given the query text, the
timeout and the index of this invocation for the current record (the oracle
that fixes the outcome of each attempt), it returns a row count or raises an
error message. -/
def Executor : Type := String → Nat → Nat → Except String Nat

deriving instance DecidableEq for Except

/-- Result of running `ExecutionEngine.executeQuery` for one record:
the returned value or thrown error, the number of executor invocations
made, and the total retry-sleep milliseconds requested. -/
structure AttemptTrace where
  result : Except String Nat
  calls : Nat
  sleepMs : Nat
deriving Repr, DecidableEq

/-- The `while (retries <= maxRetries)` loop of
`ExecutionEngine.executeQuery`.  `r` is the number of attempts still allowed
(`maxRetries + 1 - retries`), `k` the index of the next executor call.
On failure with further attempts allowed the source sleeps `retryDelay`
milliseconds (guarded by `retryDelay > 0`) and loops; when the incremented
retry count exceeds `maxRetries` it rethrows the last error. -/
def runAttempts (attempt : Nat → Except String Nat) (retryDelay : Nat) :
    Nat → Nat → AttemptTrace
  | 0, _ => ⟨Except.error "", 0, 0⟩
  | r + 1, k =>
    match attempt k with
    | Except.ok v => ⟨Except.ok v, 1, 0⟩
    | Except.error e =>
      if r = 0 then ⟨Except.error e, 1, 0⟩
      else
        let t := runAttempts attempt retryDelay r (k + 1)
        ⟨t.result, t.calls + 1, (if retryDelay > 0 then retryDelay else 0) + t.sleepMs⟩

/-- `ExecutionEngine.executeQuery(query)`:
`timeout = config.timeout || 30000`, `maxRetries = config.maxRetries || 3`,
`retryDelay = config.retryDelay || 1000`, then the bounded retry loop,
which allows `maxRetries + 1` attempts in total. -/
def executeQuery (cfg : EngineConfig) (ex : Executor) (q : Query) : AttemptTrace :=
  runAttempts (ex q.query (jsOr cfg.timeout 30000)) (jsOr cfg.retryDelay 1000)
    (jsOr cfg.maxRetries 3 + 1) 0

/-- One element of `results.data` in `ExecutionEngine.executeQueries`.
`executionTime` is a wall-clock difference on the success path (not
modelled, held at `0`) and the literal `0` on the failure path, as in the
source. -/
structure ResultItem where
  id : String
  name : String
  «section» : String
  description : String
  success : Bool
  executionTime : Nat
  rowCount : Nat
  errorMsg : Option String
deriving Repr, DecidableEq

/-- The aggregate `results` object returned by `executeQueries`. -/
structure BatchResults where
  data : List ResultItem
  successful : Nat
  failed : Nat
  executionTime : Nat
deriving Repr, DecidableEq

/-- One `progressCallback` invocation. -/
structure ProgressEvent where
  completed : Nat
  total : Nat
  currentQuery : String
deriving Repr, DecidableEq

/-- Accumulated observable state of the `for` loop of `executeQueries`:
emitted progress events, collected outcome items, the success/failure
counters, and the error rethrown by the `continueOnError === false` abort
path (if any). -/
structure LoopState where
  events : List ProgressEvent
  data : List ResultItem
  successful : Nat
  failed : Nat
  fatal : Option String
deriving Repr, DecidableEq

/-- The `for (let i = 0; i < queries.length; i++)` loop of
`executeQueries`, processing the remaining records with `i` the absolute
index of the next one.  Before each record a progress event
`{completed: i, total, currentQuery: query.name}` is emitted; a success
pushes a success item and increments `successful`; a terminal failure
pushes a failure item with `executionTime: 0`, `rowCount: 0` and the final
error message, increments `failed`, and — when `continueOnError` is false —
rethrows, ending the loop. -/
def runQueriesLoop (cfg : EngineConfig) (ex : Executor) (total : Nat) :
    List Query → Nat → LoopState
  | [], _ => ⟨[], [], 0, 0, none⟩
  | q :: rest, i =>
    let ev : ProgressEvent := ⟨i, total, q.name⟩
    match (executeQuery cfg ex q).result with
    | Except.ok v =>
      let s := runQueriesLoop cfg ex total rest (i + 1)
      ⟨ev :: s.events,
       ⟨q.id, q.name, q.«section», q.description, true, 0, v, none⟩ :: s.data,
       s.successful + 1, s.failed, s.fatal⟩
    | Except.error e =>
      let item : ResultItem := ⟨q.id, q.name, q.«section», q.description, false, 0, 0, some e⟩
      if cfg.continueOnError then
        let s := runQueriesLoop cfg ex total rest (i + 1)
        ⟨ev :: s.events, item :: s.data, s.successful, s.failed + 1, s.fatal⟩
      else
        ⟨[ev], [item], 0, 1, some e⟩

/-- `ExecutionEngine.executeQueries(queries, progressCallback)`: runs the
loop from index `0`; if no batch-fatal error was thrown, emits the final
`{completed: total, total, currentQuery: 'Complete'}` progress event and
returns the aggregate results; otherwise the thrown error propagates and no
`BatchResults` value is produced.  The emitted progress events are returned
alongside. -/
def executeQueries (cfg : EngineConfig) (ex : Executor) (queries : List Query) :
    List ProgressEvent × Except String BatchResults :=
  let s := runQueriesLoop cfg ex queries.length queries 0
  match s.fatal with
  | some e => (s.events, Except.error e)
  | none =>
    (s.events ++ [⟨queries.length, queries.length, "Complete"⟩],
     Except.ok ⟨s.data, s.successful, s.failed, 0⟩)

/-! ## QueryParser (`src/core/QueryParser.js`) -/

/-- `sqlContent.split(/^------$/gm)` at the level of lines: split the line
list at each line that consists exactly of the six-dash delimiter.  The JS
split leaves the newlines adjacent to a delimiter inside the surrounding
parts; every use of a part in the source first applies `.trim()`, which
erases exactly that difference. -/
def splitLines : List String → List (List String)
  | [] => [[]]
  | l :: rest =>
    match splitLines rest with
    | [] => [[]]
    | g :: gs => if l = "------" then [] :: g :: gs else (l :: g) :: gs

/-- The `queryBlocks` array of `parseGlenBerryQueries`. -/
def queryBlocks (sqlContent : String) : List String :=
  (splitLines (jsLines sqlContent)).map (String.intercalate "\n")

/-- Match a case-insensitive literal at the head of the text, returning the
rest. -/
def matchInsens : List Char → List Char → Option (List Char)
  | [], cs => some cs
  | _ :: _, [] => none
  | c :: ls, x :: xs => if x.toLower = c then matchInsens ls xs else none

/-- Match the `\(Query\s+(\d+)\)\s*\(([^)]+)\)` tail of the annotation
pattern at this position, returning the second capture (the parenthesized
description).  `\s` may cross line ends while `[^)]` excludes only the
closing parenthesis, as in the JS regex. -/
def parseAnnotationAt (cs : List Char) : Option String :=
  match matchInsens "(query".toList cs with
  | none => none
  | some cs1 =>
    let sp := cs1.span Char.isWhitespace
    if sp.1 = [] then none
    else
      let ds := sp.2.span Char.isDigit
      if ds.1 = [] then none
      else
        match ds.2 with
        | ')' :: cs4 =>
          match (cs4.span Char.isWhitespace).2 with
          | '(' :: cs6 =>
            let de := cs6.span (fun c => c ≠ ')')
            if de.1 = [] then none
            else
              match de.2 with
              | ')' :: _ => some (String.mk de.1)
              | _ => none
          | _ => none
        | _ => none

/-- Scan forward within the current line (the lazy `.*?`, whose `.` does not
cross a newline) for the first position where the annotation tail matches. -/
def scanLineForAnnotation : List Char → Option String
  | [] => none
  | c :: cs =>
    if c = '\n' then none
    else
      match parseAnnotationAt (c :: cs) with
      | some d => some d
      | none => scanLineForAnnotation cs

/-- The `block.match(queryPattern)` of `extractQueryInfo`, where the pattern
is two dashes, a lazy same-line gap, then the annotation tail; returns the
description capture of the leftmost match: try each dash-pair occurrence
from the left, completing within its line, and fall through to later
occurrences when no completion exists. -/
def findAnnotation : List Char → Option String
  | [] => none
  | c :: cs =>
    match c, cs with
    | '-', '-' :: cs2 =>
      (match scanLineForAnnotation cs2 with
       | some d => some d
       | none => findAnnotation cs)
    | _, _ => findAnnotation cs

/-- The regex match of `extractQueryInfo` on a block. -/
def matchQueryPattern (block : String) : Option String :=
  findAnnotation block.data

/-- `QueryParser.categorizeQuery(description, block)`: the source's cascade
of case-insensitive `includes` checks, description keywords first, then
content signatures, defaulting to `'General'`. -/
def categorizeQuery (description block : String) : String :=
  let desc := jsToLower description
  let content := jsToLower block
  if containsSubstring desc "version" || containsSubstring desc "server properties" ||
      containsSubstring desc "configuration" then "Instance Information"
  else if containsSubstring desc "memory" || containsSubstring desc "hardware" ||
      containsSubstring desc "cpu" || containsSubstring desc "numa" then "Hardware & OS"
  else if containsSubstring desc "backup" || containsSubstring desc "maintenance" ||
      containsSubstring desc "statistics" || containsSubstring desc "fragmentation" then "Maintenance"
  else if containsSubstring desc "wait" || containsSubstring desc "performance" ||
      containsSubstring desc "execution" || containsSubstring desc "expensive" then "Performance"
  else if containsSubstring desc "database" || containsSubstring desc "file" ||
      containsSubstring desc "table" || containsSubstring desc "index" then "Database Objects"
  else if containsSubstring desc "security" || containsSubstring desc "login" ||
      containsSubstring desc "permission" then "Security"
  else if containsSubstring desc "alwayson" || containsSubstring desc "cluster" ||
      containsSubstring desc "availability" then "High Availability"
  else if containsSubstring desc "job" || containsSubstring desc "agent" ||
      containsSubstring desc "alert" then "SQL Server Agent"
  else if containsSubstring content "sys.dm_os_wait_stats" ||
      containsSubstring content "sys.dm_exec_query_stats" then "Performance"
  else if containsSubstring content "sys.databases" ||
      containsSubstring content "sys.master_files" then "Database Objects"
  else if containsSubstring content "msdb.dbo.backupset" ||
      containsSubstring content "dbcc" then "Maintenance"
  else "General"

/-- The description-keyword rule table of the spec's `classifySection`,
in the source's rule order. -/
def descRules : List (List String × String) :=
  [(["version", "server properties", "configuration"], "Instance Information"),
   (["memory", "hardware", "cpu", "numa"], "Hardware & OS"),
   (["backup", "maintenance", "statistics", "fragmentation"], "Maintenance"),
   (["wait", "performance", "execution", "expensive"], "Performance"),
   (["database", "file", "table", "index"], "Database Objects"),
   (["security", "login", "permission"], "Security"),
   (["alwayson", "cluster", "availability"], "High Availability"),
   (["job", "agent", "alert"], "SQL Server Agent")]

/-- The content-signature rule table of the spec's `classifySection`,
in the source's rule order. -/
def contentRules : List (List String × String) :=
  [(["sys.dm_os_wait_stats", "sys.dm_exec_query_stats"], "Performance"),
   (["sys.databases", "sys.master_files"], "Database Objects"),
   (["msdb.dbo.backupset", "dbcc"], "Maintenance")]

/-- First matching rule of an ordered rule table: a rule matches when any of
its keywords occurs in the text. -/
def firstMatch : List (List String × String) → String → Option String
  | [], _ => none
  | r :: rest, t =>
    if r.1.any (fun k => containsSubstring t k) then some r.2 else firstMatch rest t

/-- The spec's formulation of `classifySection`: test the ordered
description-keyword rules against the description first; only if none match,
test the ordered content-signature rules against the body; otherwise
`"General"`.  Stated from the spec's words, to be compared with
`categorizeQuery` (the source's cascade). -/
def categorizeQuerySpec (description block : String) : String :=
  match firstMatch descRules (jsToLower description) with
  | some label => label
  | none =>
    match firstMatch contentRules (jsToLower block) with
    | some label => label
    | none => "General"

/-- `QueryParser.estimateQueryDuration(query)`: the ordered keyword-tier
table over the lowercased query text. -/
def estimateQueryDuration (query : String) : Nat :=
  let queryLower := jsToLower query
  if containsSubstring queryLower "@@version" || containsSubstring queryLower "serverproperty" ||
      containsSubstring queryLower "sys.configurations" then 500
  else if containsSubstring queryLower "sys.dm_os_wait_stats" ||
      containsSubstring queryLower "sys.dm_exec_query_stats" ||
      containsSubstring queryLower "sys.dm_db_index_usage_stats" then 2000
  else if containsSubstring queryLower "sys.dm_db_index_physical_stats" ||
      containsSubstring queryLower "sys.dm_os_buffer_descriptors" then 5000
  else if containsSubstring queryLower "cross apply" &&
      containsSubstring queryLower "sys.dm_exec_sql_text" then 10000
  else 3000

/-- The metadata and body `extractQueryInfo` returns for an accepted
block. -/
structure QueryInfo where
  name : String
  «section» : String
  description : String
  query : String
deriving Repr, DecidableEq

/-- `QueryParser.extractQueryInfo(block, queryNumber)`: match the annotation
pattern for name/description/section (falling back to generated values and
section `'General'`); extract the SQL body as every line from the first line
that is neither blank nor a `--` comment (subsequent lines belong to the
body verbatim); reject the block when the trimmed body is empty or shorter
than 10 characters. -/
def extractQueryInfo (block : String) (queryNumber : Nat) : Option QueryInfo :=
  let m := matchQueryPattern block
  let description := match m with
    | some d => jsTrim d
    | none => "SQL Server diagnostic query"
  let name := match m with
    | some d => jsTrim d
    | none => "Query " ++ toString queryNumber
  let sec := match m with
    | some d => categorizeQuery (jsTrim d) block
    | none => "General"
  let lines := jsLines block
  let sqlLines := lines.dropWhile fun line => jsStartsWith (jsTrim line) "--" || jsTrim line = ""
  let query := jsTrim (String.intercalate "\n" sqlLines)
  if query = "" || query.length < 10 then none
  else some ⟨name, sec, description, query⟩

/-- The accepting loop of `parseGlenBerryQueries`: iterate over the blocks,
skipping any whose trimmed text is empty or shorter than 50 characters and
any rejected by `extractQueryInfo`; each accepted block takes the next
`queryNumber` (starting at 1, incremented on acceptance only) and the id
`glen-berry-<n>` derived from it. -/
def processBlocks : List String → Nat → List Query
  | [], _ => []
  | b :: rest, queryNumber =>
    let block := jsTrim b
    if block = "" || block.length < 50 then processBlocks rest queryNumber
    else
      match extractQueryInfo block queryNumber with
      | none => processBlocks rest queryNumber
      | some info =>
        { id := "glen-berry-" ++ toString queryNumber,
          name := info.name, «section» := info.«section»,
          description := info.description, query := info.query,
          estimatedDuration := estimateQueryDuration info.query,
          queryNumber := queryNumber } :: processBlocks rest (queryNumber + 1)

/-- `QueryParser.parseGlenBerryQueries(sqlContent, version)`: split on the
delimiter, drop the final split remainder (`i < queryBlocks.length - 1`),
and run the accepting loop from `queryNumber = 1`.  The `version` argument
only feeds logging and is omitted. -/
def parseGlenBerryQueries (sqlContent : String) : List Query :=
  processBlocks (queryBlocks sqlContent).dropLast 1

/-- Line list of a pack laid out as delimiter-separated blocks followed by a
final remainder: used to quantify over raw pack texts by their block
structure. -/
def blocksJoin : List (List String) → List String → List String
  | [], r => r
  | b :: bs, r => b ++ ["------"] ++ blocksJoin bs r

/-! ## VersionResolver (`mapVersionToKey`, `getClosestAvailableVersion`) -/

/-- The numeric keys of `this.queryPackFiles` (the canonical `VersionKey`s
with a pack file).  The three string-suffixed keys (`'2016SP2'`, `'2008R2'`,
`'2008STD'`) are omitted: `mapVersionToKey` only ever returns a number, so
they are unreachable as its results. -/
def numericPackFileKeys : List Int :=
  [2025, 2022, 2019, 2017, 2016, 2014, 2012, 2008, 2005]

/-- `QueryParser.mapVersionToKey(version)`: a year-like value in 2005..2025
is returned verbatim; otherwise the monotonic threshold table maps SQL
Server internal version numbers (highest first) to canonical years; anything
below the lowest threshold falls back to 2019. -/
def mapVersionToKey (version : Int) : Int :=
  if 2005 ≤ version ∧ version ≤ 2025 then version
  else if 17 ≤ version then 2025
  else if 16 ≤ version then 2022
  else if 15 ≤ version then 2019
  else if 14 ≤ version then 2017
  else if 13 ≤ version then 2016
  else if 12 ≤ version then 2014
  else if 11 ≤ version then 2012
  else if 10 ≤ version then 2008
  else if 9 ≤ version then 2005
  else 2019

/-- One step of the descending sort `(a, b) => bNum - aNum` used in
`getClosestAvailableVersion`. -/
def insertDesc (x : Int) : List Int → List Int
  | [] => [x]
  | y :: ys => if y < x then x :: y :: ys else y :: insertDesc x ys

/-- The descending numeric sort of the available version keys. -/
def sortDesc (l : List Int) : List Int := l.foldr insertDesc []

/-- `QueryParser.getClosestAvailableVersion(targetVersion)` as a function of
the externally-determined list of available keys (the keys of
`queryPackFiles` whose file exists): sort descending, return the first key
not newer than the target, else the last element of the sorted list (the
oldest available; `undefined`, i.e. `none`, when no key is available). -/
def getClosestAvailableVersion (availableVersions : List Int) (targetVersion : Int) :
    Option Int :=
  let sorted := sortDesc availableVersions
  match sorted.find? (fun v => v ≤ targetVersion) with
  | some v => some v
  | none => sorted.getLast?

/-! ## Section index (`organizeSections`, `getSections`) -/

/-- One iteration of the `organizeSections` loop over a JS `Map`, modelled
as an association list in key-insertion order: append the record to its
section's list, creating the entry at the end on first sight of the key. -/
def addToSections (secs : List (String × List Query)) (q : Query) :
    List (String × List Query) :=
  if secs.any (fun p => p.1 = q.«section») then
    secs.map fun p => if p.1 = q.«section» then (p.1, p.2 ++ [q]) else p
  else secs ++ [(q.«section», [q])]

/-- `QueryParser.organizeSections()`: rebuild the section index from the
loaded records. -/
def organizeSections (queries : List Query) : List (String × List Query) :=
  queries.foldl addToSections []

/-- `QueryParser.getSections()` (the summary array it builds): per section,
its name, `queryCount` and the reduced sum of its members'
`estimatedDuration`. -/
def getSections (queries : List Query) : List (String × Nat × Nat) :=
  (organizeSections queries).map fun p =>
    (p.1, p.2.length, (p.2.map Query.estimatedDuration).sum)

/-! ## Concrete scenarios used by the claims -/

/-- Record 1 of the three-record execution scenario. -/
def qA : Query := ⟨"glen-berry-1", "Query A", "General", "demo A", "SELECT A", 3000, 1⟩

/-- Record 2 of the scenario: the one whose executor call always fails. -/
def qB : Query := ⟨"glen-berry-2", "Query B", "General", "demo B", "SELECT B", 3000, 2⟩

/-- Record 3 of the scenario. -/
def qC : Query := ⟨"glen-berry-3", "Query C", "General", "demo C", "SELECT C", 3000, 3⟩

/-- The three-record batch of the execution scenarios. -/
def queries3 : List Query := [qA, qB, qC]

/-- Executor for the scenario: every attempt on record 2's text fails (the
message names the attempt, so the recorded error identifies the final
attempt); every other call returns 5 rows. -/
def exScenario : Executor := fun text _ k =>
  if text = "SELECT B" then Except.error ("timeout expired " ++ toString (k + 1))
  else Except.ok 5

/-- Executor whose every call fails. -/
def exAlwaysFail : Executor := fun _ _ _ => Except.error "connection lost"

/-- `{maxRetries: 1, retryDelayMs: 100, continueOnError: true}`. -/
def cfgContinue : EngineConfig := ⟨30000, 1, 100, true⟩

/-- `{maxRetries: 1, retryDelayMs: 100, continueOnError: false}`. -/
def cfgAbort : EngineConfig := ⟨30000, 1, 100, false⟩

/-- `{maxRetries: 0, retryDelayMs: 0, continueOnError: true}`. -/
def cfgZeroRetries : EngineConfig := ⟨30000, 0, 0, true⟩

/-- Valid block 1 of the concrete pack: annotated, over 50 characters, with
an SQL body. -/
def packBlock1 : String :=
  "-- Intro comment (Query 1) (Version Info)\nSELECT @@VERSION AS VersionInfo;\n-- trailing note padded"

/-- The malformed block: over 50 characters but made of comment lines only,
so its extracted body is empty and no record is produced. -/
def packBlockMalformed : String :=
  "-- malformed block with no sql statement at all in here\n-- still nothing but comments"

/-- Valid block 2 of the concrete pack. -/
def packBlock2 : String :=
  "-- Another one (Query 2) (Memory Usage)\nSELECT total_physical_memory_kb FROM sys.dm_os_sys_memory;"

/-- Valid block 3 of the concrete pack. -/
def packBlock3 : String :=
  "-- Third one (Query 3) (Database Files)\nSELECT name, physical_name FROM sys.master_files;"

/-- A raw pack of 3 valid blocks and 1 malformed block (plus the trailing
remainder after the last delimiter). -/
def samplePack : String :=
  packBlock1 ++ "\n------\n" ++ packBlockMalformed ++ "\n------\n" ++ packBlock2 ++
    "\n------\n" ++ packBlock3 ++ "\n------\n" ++ "-- remainder notes"

/-! ## Lemmas: the retry loop -/

theorem runAttempts_calls_le (a : Nat → Except String Nat) (d : Nat) :
    ∀ r k, (runAttempts a d r k).calls ≤ r := by
  intro r
  induction r with
  | zero => intro k; simp [runAttempts]
  | succ r ih =>
    intro k
    cases h : a k with
    | ok v => simp [runAttempts, h]
    | error e =>
      by_cases hr : r = 0
      · simp [runAttempts, h, hr]
      · have := ih (k + 1)
        simp [runAttempts, h, hr]
        omega

theorem runAttempts_error_calls (a : Nat → Except String Nat) (d : Nat) :
    ∀ r k e, (runAttempts a d r k).result = Except.error e →
      (runAttempts a d r k).calls = r := by
  intro r
  induction r with
  | zero => intro k e _; simp [runAttempts]
  | succ r ih =>
    intro k e he
    cases h : a k with
    | ok v => simp [runAttempts, h] at he
    | error e2 =>
      by_cases hr : r = 0
      · simp [runAttempts, h, hr]
      · simp [runAttempts, h, hr] at he ⊢
        have := ih (k + 1) e he
        omega

/-! ## Lemmas: the batch loop, branch equations -/

theorem runQueriesLoop_cons (cfg : EngineConfig) (ex : Executor) (total : Nat)
    (q : Query) (rest : List Query) (i : Nat) :
    runQueriesLoop cfg ex total (q :: rest) i =
      (match (executeQuery cfg ex q).result with
       | Except.ok v =>
         ⟨⟨i, total, q.name⟩ :: (runQueriesLoop cfg ex total rest (i + 1)).events,
          ⟨q.id, q.name, q.«section», q.description, true, 0, v, none⟩ ::
            (runQueriesLoop cfg ex total rest (i + 1)).data,
          (runQueriesLoop cfg ex total rest (i + 1)).successful + 1,
          (runQueriesLoop cfg ex total rest (i + 1)).failed,
          (runQueriesLoop cfg ex total rest (i + 1)).fatal⟩
       | Except.error e =>
         if cfg.continueOnError then
           ⟨⟨i, total, q.name⟩ :: (runQueriesLoop cfg ex total rest (i + 1)).events,
            ⟨q.id, q.name, q.«section», q.description, false, 0, 0, some e⟩ ::
              (runQueriesLoop cfg ex total rest (i + 1)).data,
            (runQueriesLoop cfg ex total rest (i + 1)).successful,
            (runQueriesLoop cfg ex total rest (i + 1)).failed + 1,
            (runQueriesLoop cfg ex total rest (i + 1)).fatal⟩
         else
           ⟨[⟨i, total, q.name⟩],
            [⟨q.id, q.name, q.«section», q.description, false, 0, 0, some e⟩],
            0, 1, some e⟩) := rfl

theorem runQueriesLoop_cons_ok (cfg : EngineConfig) (ex : Executor) (total : Nat)
    (q : Query) (rest : List Query) (i v : Nat)
    (hr : (executeQuery cfg ex q).result = Except.ok v) :
    runQueriesLoop cfg ex total (q :: rest) i =
      ⟨⟨i, total, q.name⟩ :: (runQueriesLoop cfg ex total rest (i + 1)).events,
       ⟨q.id, q.name, q.«section», q.description, true, 0, v, none⟩ ::
         (runQueriesLoop cfg ex total rest (i + 1)).data,
       (runQueriesLoop cfg ex total rest (i + 1)).successful + 1,
       (runQueriesLoop cfg ex total rest (i + 1)).failed,
       (runQueriesLoop cfg ex total rest (i + 1)).fatal⟩ := by
  rw [runQueriesLoop_cons, hr]

theorem runQueriesLoop_cons_error_continue (cfg : EngineConfig) (ex : Executor)
    (total : Nat) (q : Query) (rest : List Query) (i : Nat) (e : String)
    (hr : (executeQuery cfg ex q).result = Except.error e)
    (hc : cfg.continueOnError = true) :
    runQueriesLoop cfg ex total (q :: rest) i =
      ⟨⟨i, total, q.name⟩ :: (runQueriesLoop cfg ex total rest (i + 1)).events,
       ⟨q.id, q.name, q.«section», q.description, false, 0, 0, some e⟩ ::
         (runQueriesLoop cfg ex total rest (i + 1)).data,
       (runQueriesLoop cfg ex total rest (i + 1)).successful,
       (runQueriesLoop cfg ex total rest (i + 1)).failed + 1,
       (runQueriesLoop cfg ex total rest (i + 1)).fatal⟩ := by
  rw [runQueriesLoop_cons, hr, hc]
  rfl

theorem runQueriesLoop_cons_error_abort (cfg : EngineConfig) (ex : Executor)
    (total : Nat) (q : Query) (rest : List Query) (i : Nat) (e : String)
    (hr : (executeQuery cfg ex q).result = Except.error e)
    (hc : cfg.continueOnError = false) :
    runQueriesLoop cfg ex total (q :: rest) i =
      ⟨[⟨i, total, q.name⟩],
       [⟨q.id, q.name, q.«section», q.description, false, 0, 0, some e⟩],
       0, 1, some e⟩ := by
  rw [runQueriesLoop_cons, hr, hc]
  rfl

theorem executeQueries_def (cfg : EngineConfig) (ex : Executor) (qs : List Query) :
    executeQueries cfg ex qs =
      (match (runQueriesLoop cfg ex qs.length qs 0).fatal with
       | some e => ((runQueriesLoop cfg ex qs.length qs 0).events, Except.error e)
       | none =>
         ((runQueriesLoop cfg ex qs.length qs 0).events ++
            [⟨qs.length, qs.length, "Complete"⟩],
          Except.ok ⟨(runQueriesLoop cfg ex qs.length qs 0).data,
            (runQueriesLoop cfg ex qs.length qs 0).successful,
            (runQueriesLoop cfg ex qs.length qs 0).failed, 0⟩)) := rfl

theorem executeQueries_of_fatal (cfg : EngineConfig) (ex : Executor) (qs : List Query)
    (e : String) (hf : (runQueriesLoop cfg ex qs.length qs 0).fatal = some e) :
    executeQueries cfg ex qs =
      ((runQueriesLoop cfg ex qs.length qs 0).events, Except.error e) := by
  rw [executeQueries_def, hf]

theorem executeQueries_of_complete (cfg : EngineConfig) (ex : Executor) (qs : List Query)
    (hf : (runQueriesLoop cfg ex qs.length qs 0).fatal = none) :
    executeQueries cfg ex qs =
      ((runQueriesLoop cfg ex qs.length qs 0).events ++
        [⟨qs.length, qs.length, "Complete"⟩],
       Except.ok ⟨(runQueriesLoop cfg ex qs.length qs 0).data,
         (runQueriesLoop cfg ex qs.length qs 0).successful,
         (runQueriesLoop cfg ex qs.length qs 0).failed, 0⟩) := by
  rw [executeQueries_def, hf]

theorem runQueriesLoop_fatal (cfg : EngineConfig) (ex : Executor) (total : Nat)
    (hc : cfg.continueOnError = false) :
    ∀ (qs : List Query) (i0 : Nat) (e : String),
      (runQueriesLoop cfg ex total qs i0).fatal = some e →
      ∃ j q, qs.get? j = some q ∧ (executeQuery cfg ex q).result = Except.error e ∧
        (∀ i qi, i < j → qs.get? i = some qi →
          ((executeQuery cfg ex qi).result).isOk = true) ∧
        (runQueriesLoop cfg ex total qs i0).events =
          ((qs.take (j + 1)).enumFrom i0).map fun p => ⟨p.1, total, p.2.name⟩ := by
  intro qs
  induction qs with
  | nil => intro i0 e h; simp [runQueriesLoop] at h
  | cons q rest ih =>
    intro i0 e h
    cases hr : (executeQuery cfg ex q).result with
    | ok v =>
      rw [runQueriesLoop_cons_ok cfg ex total q rest i0 v hr] at h ⊢
      simp only [LoopState.fatal] at h
      obtain ⟨j, q2, h1, h2, h3, h4⟩ := ih (i0 + 1) e h
      refine ⟨j + 1, q2, by simpa using h1, h2, ?_, ?_⟩
      · intro i qi hij hget
        cases i with
        | zero =>
          rw [List.get?_cons_zero] at hget
          cases hget
          rw [hr]
          rfl
        | succ i2 =>
          rw [List.get?_cons_succ] at hget
          exact h3 i2 qi (by omega) hget
      · simp only [LoopState.events, List.take_succ_cons, List.enumFrom_cons, List.map_cons]
        rw [h4]
    | error e2 =>
      rw [runQueriesLoop_cons_error_abort cfg ex total q rest i0 e2 hr hc] at h ⊢
      simp only [LoopState.fatal, Option.some.injEq] at h
      subst h
      refine ⟨0, q, List.get?_cons_zero, hr, ?_, ?_⟩
      · intro i qi hij
        omega
      · simp [List.enumFrom_cons]

theorem runQueriesLoop_complete (cfg : EngineConfig) (ex : Executor) (total : Nat) :
    ∀ (qs : List Query) (i0 : Nat),
      (runQueriesLoop cfg ex total qs i0).fatal = none →
      (runQueriesLoop cfg ex total qs i0).events =
        (qs.enumFrom i0).map fun p => ⟨p.1, total, p.2.name⟩ := by
  intro qs
  induction qs with
  | nil => intro i0 _; simp [runQueriesLoop]
  | cons q rest ih =>
    intro i0 h
    cases hr : (executeQuery cfg ex q).result with
    | ok v =>
      rw [runQueriesLoop_cons_ok cfg ex total q rest i0 v hr] at h ⊢
      simp only [LoopState.fatal] at h
      simp only [LoopState.events, List.enumFrom_cons, List.map_cons]
      rw [ih (i0 + 1) h]
    | error e2 =>
      cases hc : cfg.continueOnError with
      | true =>
        rw [runQueriesLoop_cons_error_continue cfg ex total q rest i0 e2 hr hc] at h ⊢
        simp only [LoopState.fatal] at h
        simp only [LoopState.events, List.enumFrom_cons, List.map_cons]
        rw [ih (i0 + 1) h]
      | false =>
        rw [runQueriesLoop_cons_error_abort cfg ex total q rest i0 e2 hr hc] at h
        simp at h

/-! ## C1 -/

/-- C1 (amended): for every record and every positive `maxRetries`, the
engine invokes the executor at most `maxRetries + 1` times, and a terminal
failure occurs exactly at attempt `maxRetries + 1`.  (`maxRetries = 0` is
falsy for `config.maxRetries || 3` and selects the default 3; see
`c1_counterexample`.) -/
theorem c1_retry_bound (cfg : EngineConfig) (ex : Executor) (q : Query)
    (h : 1 ≤ cfg.maxRetries) :
    (executeQuery cfg ex q).calls ≤ cfg.maxRetries + 1 ∧
    (∀ e, (executeQuery cfg ex q).result = Except.error e →
      (executeQuery cfg ex q).calls = cfg.maxRetries + 1) := by
  have hm : jsOr cfg.maxRetries 3 = cfg.maxRetries := by
    unfold jsOr; split <;> omega
  unfold executeQuery
  rw [hm]
  exact ⟨runAttempts_calls_le _ _ _ _, fun e he => runAttempts_error_calls _ _ _ _ e he⟩

/-- C1 witness: the bound applied at `maxRetries = 1` with an executor that
always fails. -/
theorem c1_retry_bound_witness :
    (executeQuery cfgContinue exAlwaysFail qA).calls ≤ cfgContinue.maxRetries + 1 ∧
    (∀ e, (executeQuery cfgContinue exAlwaysFail qA).result = Except.error e →
      (executeQuery cfgContinue exAlwaysFail qA).calls = cfgContinue.maxRetries + 1) :=
  c1_retry_bound cfgContinue exAlwaysFail qA (by decide)

/-- C1 counterexample: with `maxRetries = 0` (and `retryDelayMs = 0`) the
claim promises exactly one executor call, terminal first failure, and no
retry sleep; the source's `this.config.maxRetries || 3` and
`this.config.retryDelay || 1000` treat the zeroes as unset, so an
always-failing record sees 4 executor calls and 3 sleeps of 1000 ms. -/
theorem c1_counterexample :
    cfgZeroRetries.maxRetries = 0 ∧ cfgZeroRetries.retryDelay = 0 ∧
    (executeQuery cfgZeroRetries exAlwaysFail qA).calls = 4 ∧
    ¬ (executeQuery cfgZeroRetries exAlwaysFail qA).calls ≤ cfgZeroRetries.maxRetries + 1 ∧
    (executeQuery cfgZeroRetries exAlwaysFail qA).sleepMs = 3000 := by decide

/-! ## C2 -/

/-- C2: 3 records, `maxRetries = 1`, record 2 failing every attempt,
`continueOnError = true`: the run completes with `successful = 2`,
`failed = 1`, an outcome list of length 3 in input order, a second outcome
with `success = false`, `rowCount = 0`, `elapsedMs = 0` and the (non-empty)
final attempt's error message, and records 1 and 3 executed
successfully. -/
theorem c2_batch_outcome :
    ((executeQueries cfgContinue exScenario queries3).2.toOption.map fun r =>
      (r.successful, r.failed, r.data.length)) = some (2, 1, 3) ∧
    ((executeQueries cfgContinue exScenario queries3).2.toOption.map fun r =>
      r.data.map fun it => (it.id, it.success)) =
      some [("glen-berry-1", true), ("glen-berry-2", false), ("glen-berry-3", true)] ∧
    (((executeQueries cfgContinue exScenario queries3).2.toOption.bind fun r =>
      r.data.get? 1).map fun it => (it.success, it.rowCount, it.executionTime, it.errorMsg)) =
      some (false, 0, 0, some "timeout expired 2") ∧
    ("timeout expired 2" : String) ≠ "" := by decide

/-! ## C3 -/

/-- C3 (amended): with `continueOnError = false`, a terminal record failure
aborts the batch immediately: the run raises before producing a
`BatchResults` value, every earlier record succeeded, no progress event is
emitted for any record after the failing one (and no final event), and the
propagated error is the failing record's final attempt error verbatim — it
does not include the record's name (the name appears only in logging; see
`c3_counterexample`). -/
theorem c3_abort (cfg : EngineConfig) (ex : Executor) (qs : List Query) (e : String)
    (hc : cfg.continueOnError = false)
    (he : (executeQueries cfg ex qs).2 = Except.error e) :
    ∃ j q, qs.get? j = some q ∧ (executeQuery cfg ex q).result = Except.error e ∧
      (∀ i qi, i < j → qs.get? i = some qi →
        ((executeQuery cfg ex qi).result).isOk = true) ∧
      (executeQueries cfg ex qs).1 =
        ((qs.take (j + 1)).enum).map fun p => ⟨p.1, qs.length, p.2.name⟩ := by
  cases hf : (runQueriesLoop cfg ex qs.length qs 0).fatal with
  | none =>
    rw [executeQueries_of_complete cfg ex qs hf] at he
    simp at he
  | some e2 =>
    rw [executeQueries_of_fatal cfg ex qs e2 hf] at he ⊢
    have he2 : e2 = e := by simpa using he
    subst he2
    obtain ⟨j, q, h1, h2, h3, h4⟩ := runQueriesLoop_fatal cfg ex qs.length hc qs 0 e2 hf
    exact ⟨j, q, h1, h2, h3, h4⟩

/-- C3 witness: the abort shape applied to the concrete three-record
scenario with `continueOnError = false`. -/
theorem c3_abort_witness :
    ∃ j q, queries3.get? j = some q ∧
      (executeQuery cfgAbort exScenario q).result = Except.error "timeout expired 2" ∧
      (∀ i qi, i < j → queries3.get? i = some qi →
        ((executeQuery cfgAbort exScenario qi).result).isOk = true) ∧
      (executeQueries cfgAbort exScenario queries3).1 =
        ((queries3.take (j + 1)).enum).map fun p => ⟨p.1, queries3.length, p.2.name⟩ :=
  c3_abort cfgAbort exScenario queries3 "timeout expired 2" rfl (by decide)

/-- C3 counterexample: in the concrete aborting scenario the batch-fatal
error propagated by the run is the bare executor error; it does not contain
the failing record's name `"Query B"`, contradicting the claim that the
propagated error includes the record's name. -/
theorem c3_counterexample :
    (executeQueries cfgAbort exScenario queries3).2 = Except.error "timeout expired 2" ∧
    containsSubstring "timeout expired 2" "Query B" = false ∧
    queries3.get? 1 = some qB ∧ qB.name = "Query B" ∧
    (executeQueries cfgAbort exScenario queries3).1.length = 2 := by decide

/-! ## C4 -/

/-- C4: for every batch that runs to completion, the progress events are
exactly one per record in input order — event `i` carrying `completed = i`
and the record's name — followed by one final event with
`completed = total`; so there are `N + 1` events and the reported
`completed` values are `0, 1, …, N`. -/
theorem c4_progress (cfg : EngineConfig) (ex : Executor) (qs : List Query)
    (r : BatchResults) (h : (executeQueries cfg ex qs).2 = Except.ok r) :
    (executeQueries cfg ex qs).1 =
      (qs.enum.map fun p => ⟨p.1, qs.length, p.2.name⟩) ++
        [⟨qs.length, qs.length, "Complete"⟩] ∧
    (executeQueries cfg ex qs).1.map ProgressEvent.completed =
      List.range (qs.length + 1) ∧
    (executeQueries cfg ex qs).1.length = qs.length + 1 := by
  cases hf : (runQueriesLoop cfg ex qs.length qs 0).fatal with
  | some e =>
    rw [executeQueries_of_fatal cfg ex qs e hf] at h
    simp at h
  | none =>
    rw [executeQueries_of_complete cfg ex qs hf]
    have hev := runQueriesLoop_complete cfg ex qs.length qs 0 hf
    rw [hev]
    refine ⟨rfl, ?_, ?_⟩
    · rw [List.map_append, List.map_map]
      have hfst : (ProgressEvent.completed ∘
          fun p : Nat × Query => (⟨p.1, qs.length, p.2.name⟩ : ProgressEvent)) = Prod.fst := by
        funext p; rfl
      rw [hfst, List.enumFrom_map_fst, List.range_succ, List.range_eq_range']
      simp
    · simp

/-- C4 witness: the progress contract applied to the concrete scenario that
runs to completion (`continueOnError = true`). -/
theorem c4_progress_witness :
    (executeQueries cfgContinue exScenario queries3).1.length = queries3.length + 1 :=
  (c4_progress cfgContinue exScenario queries3
    ⟨[⟨"glen-berry-1", "Query A", "General", "demo A", true, 0, 5, none⟩,
      ⟨"glen-berry-2", "Query B", "General", "demo B", false, 0, 0, some "timeout expired 2"⟩,
      ⟨"glen-berry-3", "Query C", "General", "demo C", true, 0, 5, none⟩], 2, 1, 0⟩
    (by decide)).2.2

/-! ## Lemmas: the parser's accepting loop -/

theorem processBlocks_map_queryNumber :
    ∀ (bs : List String) (n : Nat),
      (processBlocks bs n).map Query.queryNumber =
        List.range' n (processBlocks bs n).length := by
  intro bs
  induction bs with
  | nil => intro n; simp [processBlocks]
  | cons b rest ih =>
    intro n
    simp only [processBlocks]
    split
    · exact ih n
    · split
      · exact ih n
      · simp only [List.map_cons, List.length_cons, List.range'_succ]
        rw [ih (n + 1)]

theorem processBlocks_id_eq :
    ∀ (bs : List String) (n : Nat) (q : Query), q ∈ processBlocks bs n →
      q.id = "glen-berry-" ++ toString q.queryNumber := by
  intro bs
  induction bs with
  | nil => intro n q h; simp [processBlocks] at h
  | cons b rest ih =>
    intro n q h
    simp only [processBlocks] at h
    split at h
    · exact ih n q h
    · split at h
      · exact ih n q h
      · rcases List.mem_cons.mp h with h0 | h0
        · subst h0; rfl
        · exact ih (n + 1) q h0

/-! ## C5 -/

/-- C5: over every raw pack, the records' `queryNumber`s (the spec's
`sequenceNumber`s) form the contiguous run `1, 2, …, k` — numbers are
consumed by accepted blocks only — and every record's `id` is
`glen-berry-<n>` derived from its number; concretely, the pack of 3 valid
and 1 malformed block yields exactly the numbers 1, 2, 3 with their derived
ids. -/
theorem c5_sequence_numbers :
    (∀ s, (parseGlenBerryQueries s).map Query.queryNumber =
      List.range' 1 (parseGlenBerryQueries s).length) ∧
    (∀ s, ∀ q ∈ parseGlenBerryQueries s,
      q.id = "glen-berry-" ++ toString q.queryNumber) ∧
    ((parseGlenBerryQueries samplePack).map fun q => (q.queryNumber, q.id)) =
      [(1, "glen-berry-1"), (2, "glen-berry-2"), (3, "glen-berry-3")] :=
  ⟨fun s => processBlocks_map_queryNumber (queryBlocks s).dropLast 1,
   fun s q h => processBlocks_id_eq (queryBlocks s).dropLast 1 q h,
   by decide⟩

/-! ## Lemmas: the block splitter -/

theorem splitLines_ne_nil (ls : List String) : splitLines ls ≠ [] := by
  cases ls with
  | nil => simp [splitLines]
  | cons l rest =>
    simp only [splitLines]
    split
    · simp
    · split <;> simp

theorem splitLines_delim_cons (ls : List String) :
    splitLines ("------" :: ls) = [] :: splitLines ls := by
  rcases h : splitLines ls with _ | ⟨g, gs⟩
  · exact absurd h (splitLines_ne_nil ls)
  · simp only [splitLines, h]
    simp

theorem splitLines_cons_of_ne (l : String) (ls : List String) (g : List String)
    (gs : List (List String)) (hl : l ≠ "------") (h : splitLines ls = g :: gs) :
    splitLines (l :: ls) = (l :: g) :: gs := by
  simp only [splitLines, h]
  simp [hl]

theorem splitLines_append_block (b : List String) :
    ∀ (ls : List String), "------" ∉ b → ∀ g gs, splitLines ls = g :: gs →
      splitLines (b ++ ls) = (b ++ g) :: gs := by
  induction b with
  | nil => intro ls _ g gs h; simpa using h
  | cons x b ih =>
    intro ls hb g gs h
    have hx : x ≠ "------" := fun hx => hb (by simp [hx])
    have hrec := ih ls (fun m => hb (List.mem_cons_of_mem _ m)) g gs h
    have hstep := splitLines_cons_of_ne x (b ++ ls) (b ++ g) gs hx hrec
    simpa using hstep

theorem splitLines_nodelim : ∀ (r : List String), "------" ∉ r → splitLines r = [r] := by
  intro r
  induction r with
  | nil => intro _; rfl
  | cons x r ih =>
    intro hr
    have hx : x ≠ "------" := fun hx => hr (by simp [hx])
    exact splitLines_cons_of_ne x r r [] hx (ih (fun m => hr (List.mem_cons_of_mem _ m)))

theorem splitLines_blocksJoin : ∀ (bs : List (List String)) (r : List String),
    (∀ b ∈ bs, "------" ∉ b) → "------" ∉ r →
    splitLines (blocksJoin bs r) = bs ++ [r] := by
  intro bs
  induction bs with
  | nil => intro r _ hr; simpa [blocksJoin] using splitLines_nodelim r hr
  | cons b bs ih =>
    intro r hb hr
    have h1 : splitLines (blocksJoin bs r) = bs ++ [r] :=
      ih r (fun x hx => hb x (by simp [hx])) hr
    have h2 : splitLines ("------" :: blocksJoin bs r) = [] :: (bs ++ [r]) := by
      rw [splitLines_delim_cons, h1]
    have h3 := splitLines_append_block b ("------" :: blocksJoin bs r)
      (hb b (by simp)) [] (bs ++ [r]) h2
    simpa [blocksJoin] using h3

theorem processBlocks_filter_short :
    ∀ (bs : List String) (n : Nat),
      processBlocks bs n =
        processBlocks (bs.filter fun b => 50 ≤ (jsTrim b).length) n := by
  intro bs
  induction bs with
  | nil => intro n; rfl
  | cons b rest ih =>
    intro n
    by_cases hshort : jsTrim b = "" ∨ (jsTrim b).length < 50
    · have hcond : ¬ 50 ≤ (jsTrim b).length := by
        rcases hshort with h | h
        · rw [h]; decide
        · omega
      have hskip : (decide (jsTrim b = "") || decide ((jsTrim b).length < 50)) = true := by
        rcases hshort with h | h <;> simp [h]
      simp only [processBlocks, List.filter_cons, hskip, if_true]
      rw [if_neg (by simpa using hcond)]
      exact ih n
    · push_neg at hshort
      obtain ⟨hne, hlen⟩ := hshort
      have hkeep : (decide (jsTrim b = "") || decide ((jsTrim b).length < 50)) = false := by
        simp [hne, hlen]
      have hkeep2 : decide (50 ≤ (jsTrim b).length) = true := by
        simp; omega
      simp only [processBlocks, List.filter_cons, hkeep, Bool.false_eq_true, if_false,
        hkeep2, if_true]
      cases hx : extractQueryInfo (jsTrim b) n with
      | none => simp only; exact ih n
      | some info => simp only; rw [ih (n + 1)]

/-! ## C6 -/

/-- C6: parsing is a total function of the pack text (it cannot throw), no
record ever derives from the final split remainder (the content after the
last delimiter line), and no record derives from a block whose trimmed text
is shorter than the 50-character noise threshold: two raw texts whose block
structures differ only in the remainder and in the sub-threshold blocks
parse identically. -/
theorem c6_noise_filter (s sf : String) (bs : List (List String)) (r rf : List String)
    (hb : ∀ b ∈ bs, "------" ∉ b) (hr : "------" ∉ r) (hrf : "------" ∉ rf)
    (hs : jsLines s = blocksJoin bs r)
    (hsf : jsLines sf =
      blocksJoin (bs.filter fun b => 50 ≤ (jsTrim (String.intercalate "\n" b)).length) rf) :
    parseGlenBerryQueries s = parseGlenBerryQueries sf := by
  have hbf : ∀ b ∈ (bs.filter fun b => 50 ≤ (jsTrim (String.intercalate "\n" b)).length),
      "------" ∉ b := fun b m => hb b (List.mem_filter.mp m).1
  unfold parseGlenBerryQueries queryBlocks
  rw [hs, hsf, splitLines_blocksJoin bs r hb hr, splitLines_blocksJoin _ rf hbf hrf,
    List.map_append, List.map_append]
  simp only [List.map_cons, List.map_nil, List.dropLast_concat]
  rw [processBlocks_filter_short (bs.map (String.intercalate "\n")) 1,
    List.filter_map]
  rfl

/-- C6 witness: a pack holding one sub-threshold block plus a remainder
parses exactly like a pack holding only a remainder. -/
theorem c6_noise_filter_witness :
    parseGlenBerryQueries "short\n------\nrest junk" = parseGlenBerryQueries "leftover" :=
  c6_noise_filter "short\n------\nrest junk" "leftover" [["short"]] ["rest junk"]
    ["leftover"] (by decide) (by decide) (by decide) (by decide) (by decide)

/-! ## C7 -/

set_option maxHeartbeats 2000000 in
/-- C7: `categorizeQuery` — the source's cascade of case-insensitive checks
— coincides with the spec's formulation as two ordered rule tables, the
description-keyword table tried first and the content-signature table only
when no description rule matched, with `"General"` as final default.  The
function is pure, so determinism (same pair, same label) is immediate, and
this equality shows first-matching-rule-wins over the stated rule order. -/
theorem c7_classification (d b : String) : categorizeQuery d b = categorizeQuerySpec d b := by
  simp only [categorizeQuery, categorizeQuerySpec, firstMatch, descRules, contentRules,
    List.any_cons, List.any_nil, Bool.or_false, Bool.or_assoc]
  split_ifs <;> rfl

/-! ## Lemmas: the descending key sort -/

theorem mem_insertDesc (x a : Int) : ∀ l : List Int, a ∈ insertDesc x l ↔ a = x ∨ a ∈ l := by
  intro l
  induction l with
  | nil => simp [insertDesc]
  | cons y ys ih =>
    simp only [insertDesc]
    split
    · simp [List.mem_cons]
    · simp only [List.mem_cons, ih]
      tauto

theorem sorted_insertDesc (x : Int) : ∀ l : List Int, l.Sorted (· ≥ ·) →
    (insertDesc x l).Sorted (· ≥ ·) := by
  intro l
  induction l with
  | nil => intro _; simp [insertDesc]
  | cons y ys ih =>
    intro hs
    rw [List.sorted_cons] at hs
    obtain ⟨hy, hys⟩ := hs
    simp only [insertDesc]
    split
    · rename_i hlt
      rw [List.sorted_cons]
      refine ⟨?_, ?_⟩
      · intro c hc
        rcases List.mem_cons.mp hc with rfl | hc
        · omega
        · have := hy c hc; omega
      · rw [List.sorted_cons]; exact ⟨hy, hys⟩
    · rename_i hnlt
      rw [List.sorted_cons]
      refine ⟨?_, ih hys⟩
      intro c hc
      rcases (mem_insertDesc x c ys).mp hc with rfl | hc
      · omega
      · exact hy c hc

theorem mem_sortDesc (a : Int) : ∀ l : List Int, a ∈ sortDesc l ↔ a ∈ l := by
  intro l
  induction l with
  | nil => simp [sortDesc]
  | cons x xs ih =>
    simp only [sortDesc, List.foldr_cons] at ih ⊢
    rw [mem_insertDesc]
    simp [ih]

theorem sorted_sortDesc : ∀ l : List Int, (sortDesc l).Sorted (· ≥ ·) := by
  intro l
  induction l with
  | nil => simp [sortDesc]
  | cons x xs ih =>
    simp only [sortDesc, List.foldr_cons] at ih ⊢
    exact sorted_insertDesc x _ ih

theorem find?_sorted_max (t : Int) : ∀ (l : List Int), l.Sorted (· ≥ ·) →
    ∀ m, l.find? (fun v => v ≤ t) = some m →
      m ∈ l ∧ m ≤ t ∧ ∀ k ∈ l, k ≤ t → k ≤ m := by
  intro l
  induction l with
  | nil => intro _ m h; simp at h
  | cons y ys ih =>
    intro hs m h
    rw [List.sorted_cons] at hs
    obtain ⟨hy, hys⟩ := hs
    rw [List.find?_cons] at h
    by_cases hyt : y ≤ t
    · simp only [decide_eq_true hyt] at h
      have hm : y = m := by simpa using h
      subst hm
      refine ⟨by simp, hyt, ?_⟩
      intro k hk _
      rcases List.mem_cons.mp hk with rfl | hk
      · omega
      · exact hy k hk
    · have hd : decide (y ≤ t) = false := by simpa using hyt
      simp only [hd] at h
      obtain ⟨hm, hmt, hmax⟩ := ih hys m h
      refine ⟨List.mem_cons_of_mem _ hm, hmt, ?_⟩
      intro k hk hkt
      rcases List.mem_cons.mp hk with rfl | hk
      · omega
      · exact hmax k hk hkt

theorem getLast?_sorted_min : ∀ (l : List Int), l.Sorted (· ≥ ·) →
    ∀ m, l.getLast? = some m → m ∈ l ∧ ∀ k ∈ l, m ≤ k := by
  intro l
  induction l with
  | nil => intro _ m h; simp at h
  | cons y ys ih =>
    intro hs m h
    rw [List.sorted_cons] at hs
    obtain ⟨hy, hys⟩ := hs
    cases ys with
    | nil =>
      have hm : y = m := by simpa using h
      subst hm
      refine ⟨by simp, ?_⟩
      intro k hk
      rcases List.mem_cons.mp hk with rfl | hk
      · omega
      · simp at hk
    | cons z zs =>
      rw [List.getLast?_cons_cons] at h
      obtain ⟨hm, hmin⟩ := ih hys m h
      refine ⟨List.mem_cons_of_mem _ hm, ?_⟩
      intro k hk
      rcases List.mem_cons.mp hk with rfl | hk
      · have h1 : m ≤ z := hmin z (by simp)
        have h2 : k ≥ z := hy z (by simp)
        omega
      · exact hmin k hk

/-! ## C8 -/

/-- C8: `getClosestAvailableVersion` returns the greatest available key not
newer than the target; when none is, it returns the smallest (oldest)
available key; concretely on `{2012, 2016, 2019}`, target 2017 yields 2016
and target 2005 yields 2012. -/
theorem c8_closest (avail : List Int) (target : Int) (hne : avail ≠ []) :
    (∃ m, getClosestAvailableVersion avail target = some m ∧ m ∈ avail ∧
      ((m ≤ target ∧ ∀ k ∈ avail, k ≤ target → k ≤ m) ∨
       ((∀ k ∈ avail, ¬ k ≤ target) ∧ ∀ k ∈ avail, m ≤ k))) ∧
    getClosestAvailableVersion [2012, 2016, 2019] 2017 = some 2016 ∧
    getClosestAvailableVersion [2012, 2016, 2019] 2005 = some 2012 := by
  refine ⟨?_, by decide, by decide⟩
  simp only [getClosestAvailableVersion]
  cases hf : (sortDesc avail).find? (fun v => decide (v ≤ target)) with
  | some m =>
    obtain ⟨hm, hmt, hmax⟩ := find?_sorted_max target (sortDesc avail) (sorted_sortDesc avail) m hf
    refine ⟨m, rfl, (mem_sortDesc m avail).mp hm, Or.inl ⟨hmt, ?_⟩⟩
    intro k hk hkt
    exact hmax k ((mem_sortDesc k avail).mpr hk) hkt
  | none =>
    have hnone : ∀ k ∈ avail, ¬ k ≤ target := by
      intro k hk
      have := List.find?_eq_none.mp hf k ((mem_sortDesc k avail).mpr hk)
      simpa using this
    have hsne : sortDesc avail ≠ [] := by
      intro h0
      rcases avail with _ | ⟨x, xs⟩
      · exact hne rfl
      · have hx2 : x ∈ sortDesc (x :: xs) := (mem_sortDesc x _).mpr (by simp)
        rw [h0] at hx2
        simp at hx2
    cases hl : (sortDesc avail).getLast? with
    | none =>
      rw [List.getLast?_eq_none_iff] at hl
      exact absurd hl hsne
    | some m =>
      obtain ⟨hm, hmin⟩ := getLast?_sorted_min (sortDesc avail) (sorted_sortDesc avail) m hl
      refine ⟨m, rfl, (mem_sortDesc m avail).mp hm, Or.inr ⟨hnone, ?_⟩⟩
      intro k hk
      exact hmin k ((mem_sortDesc k avail).mpr hk)

/-- C8 witness: the characterization applied to the concrete key set of the
claim. -/
theorem c8_closest_witness :
    (∃ m, getClosestAvailableVersion [2012, 2016, 2019] 2017 = some m ∧
      m ∈ [(2012 : Int), 2016, 2019] ∧
      ((m ≤ 2017 ∧ ∀ k ∈ [(2012 : Int), 2016, 2019], k ≤ 2017 → k ≤ m) ∨
       ((∀ k ∈ [(2012 : Int), 2016, 2019], ¬ k ≤ 2017) ∧
        ∀ k ∈ [(2012 : Int), 2016, 2019], m ≤ k))) ∧
    getClosestAvailableVersion [2012, 2016, 2019] 2017 = some 2016 ∧
    getClosestAvailableVersion [2012, 2016, 2019] 2005 = some 2012 :=
  c8_closest [2012, 2016, 2019] 2017 (by decide)

/-! ## C9 -/

set_option maxHeartbeats 2000000 in
/-- C9 (amended): `mapVersionToKey` is total and never raises — but it does
not always land on a key with a pack file: the year range 2005..2025 is
returned verbatim (so 2006, say, maps to itself although no pack file is
keyed 2006); outside that range every internal version number maps into the
numeric pack-file keys via the threshold table, and anything below the
lowest threshold degrades to the 2019 baseline. -/
theorem c9_resolve_total (v : Int) :
    ((2005 ≤ v ∧ v ≤ 2025) → mapVersionToKey v = v) ∧
    (¬ (2005 ≤ v ∧ v ≤ 2025) → mapVersionToKey v ∈ numericPackFileKeys) ∧
    (v < 9 → mapVersionToKey v = 2019) := by
  unfold mapVersionToKey
  refine ⟨?_, ?_, ?_⟩
  · intro h; rw [if_pos h]
  · intro h
    rw [if_neg h]
    split_ifs <;> decide
  · intro h
    have h1 : ¬ (2005 ≤ v ∧ v ≤ 2025) := by omega
    rw [if_neg h1]
    split_ifs <;> omega

/-- C9 witness: totality at two concrete indicators — an absurd low value
degrades to the baseline, an internal version number lands on a pack-file
key. -/
theorem c9_resolve_total_witness :
    mapVersionToKey 7 = 2019 ∧ mapVersionToKey 16 ∈ numericPackFileKeys :=
  ⟨(c9_resolve_total 7).2.2 (by decide),
   (c9_resolve_total 16).2.1 (by decide)⟩

/-- C9 counterexample: 2006 is in the verbatim year range, so `resolve`
returns 2006 itself, which is not one of the keys to which a pack file
maps (the claim promised a valid canonical key for every input). -/
theorem c9_counterexample :
    mapVersionToKey 2006 = 2006 ∧ (2006 : Int) ∉ numericPackFileKeys := by decide

/-! ## Lemmas: the section index -/

theorem organizeSections_inv :
    ∀ (qs seen : List Query) (secs : List (String × List Query)),
      (secs.map Prod.fst).Nodup →
      (∀ p ∈ secs, p.2 = seen.filter fun q => q.«section» = p.1) →
      (∀ q ∈ seen, q.«section» ∈ secs.map Prod.fst) →
      ((qs.foldl addToSections secs).map Prod.fst).Nodup ∧
      (∀ p ∈ qs.foldl addToSections secs,
        p.2 = (seen ++ qs).filter fun q => q.«section» = p.1) ∧
      (∀ q ∈ seen ++ qs, q.«section» ∈ (qs.foldl addToSections secs).map Prod.fst) := by
  intro qs
  induction qs with
  | nil =>
    intro seen secs h1 h2 h3
    simp only [List.foldl_nil, List.append_nil]
    exact ⟨h1, h2, h3⟩
  | cons q rest ih =>
    intro seen secs h1 h2 h3
    rw [List.foldl_cons]
    by_cases hmem : secs.any (fun p => p.1 = q.«section») = true
    · -- the key exists: one entry's list is extended in place
      have hadd : addToSections secs q =
          secs.map fun p => if p.1 = q.«section» then (p.1, p.2 ++ [q]) else p := by
        simp only [addToSections]
        rw [if_pos hmem]
      have hkeys : ((addToSections secs q).map Prod.fst) = secs.map Prod.fst := by
        rw [hadd, List.map_map]
        apply List.map_congr_left
        intro p _
        by_cases hp : p.1 = q.«section» <;> simp [hp]
      have g1 : ((addToSections secs q).map Prod.fst).Nodup := by rw [hkeys]; exact h1
      have g2 : ∀ p ∈ addToSections secs q,
          p.2 = (seen ++ [q]).filter fun r => r.«section» = p.1 := by
        intro p hp
        rw [hadd] at hp
        obtain ⟨p0, hp0, rfl⟩ := List.mem_map.mp hp
        by_cases hpq : p0.1 = q.«section»
        · rw [if_pos hpq]
          simp only
          rw [List.filter_append]
          have hq1 : [q].filter (fun r => r.«section» = p0.1) = [q] := by
            simp [hpq]
          rw [hq1, ← h2 p0 hp0]
        · rw [if_neg hpq]
          rw [List.filter_append]
          have hq0 : [q].filter (fun r => r.«section» = p0.1) = [] := by
            simp
            intro hq
            exact hpq hq.symm
          rw [hq0, ← h2 p0 hp0, List.append_nil]
      have g3 : ∀ r ∈ seen ++ [q], r.«section» ∈ (addToSections secs q).map Prod.fst := by
        intro r hr
        rw [hkeys]
        rcases List.mem_append.mp hr with hr | hr
        · exact h3 r hr
        · have : r = q := by simpa using hr
          subst this
          obtain ⟨p, hp, hpq⟩ := List.any_eq_true.mp hmem
          have : p.1 = r.«section» := by simpa using hpq
          rw [← this]
          exact List.mem_map_of_mem Prod.fst hp
      have := ih (seen ++ [q]) (addToSections secs q) g1 g2 g3
      simpa using this
    · -- new key: appended at the end
      have hadd : addToSections secs q = secs ++ [(q.«section», [q])] := by
        simp only [addToSections]
        rw [if_neg hmem]
      have hnotin : q.«section» ∉ secs.map Prod.fst := by
        intro hin
        obtain ⟨p, hp, hpk⟩ := List.mem_map.mp hin
        exact hmem (List.any_eq_true.mpr ⟨p, hp, by simp [hpk]⟩)
      have hkeys : ((addToSections secs q).map Prod.fst) =
          secs.map Prod.fst ++ [q.«section»] := by
        rw [hadd, List.map_append]
        rfl
      have g1 : ((addToSections secs q).map Prod.fst).Nodup := by
        rw [hkeys, List.nodup_append]
        refine ⟨h1, by simp, ?_⟩
        intro a ha hb
        have : a = q.«section» := by simpa using hb
        subst this
        exact hnotin ha
      have hseen : seen.filter (fun r => r.«section» = q.«section») = [] := by
        rw [List.filter_eq_nil_iff]
        intro r hr
        simp only [decide_eq_true_eq]
        intro hrq
        exact hnotin (hrq ▸ h3 r hr)
      have g2 : ∀ p ∈ addToSections secs q,
          p.2 = (seen ++ [q]).filter fun r => r.«section» = p.1 := by
        intro p hp
        rw [hadd] at hp
        rcases List.mem_append.mp hp with hp | hp
        · have hpk : p.1 ≠ q.«section» := by
            intro he
            exact hnotin (he ▸ List.mem_map_of_mem Prod.fst hp)
          rw [List.filter_append]
          have hq0 : [q].filter (fun r => r.«section» = p.1) = [] := by
            simp
            intro hq
            exact hpk hq.symm
          rw [hq0, ← h2 p hp, List.append_nil]
        · have : p = (q.«section», [q]) := by simpa using hp
          subst this
          rw [List.filter_append, hseen]
          simp
      have g3 : ∀ r ∈ seen ++ [q], r.«section» ∈ (addToSections secs q).map Prod.fst := by
        intro r hr
        rw [hkeys]
        rcases List.mem_append.mp hr with hr | hr
        · exact List.mem_append_left _ (h3 r hr)
        · have : r = q := by simpa using hr
          subst this
          simp
      have := ih (seen ++ [q]) (addToSections secs q) g1 g2 g3
      simpa using this

theorem sum_indicator_nodup (a : String) :
    ∀ ks : List String, ks.Nodup → a ∈ ks →
      ((ks.map fun s => if a = s then (1 : Nat) else 0).sum) = 1 := by
  intro ks
  induction ks with
  | nil => intro _ h; simp at h
  | cons k ks ih =>
    intro hnd hmem
    rw [List.nodup_cons] at hnd
    obtain ⟨hk, hnd⟩ := hnd
    rcases List.mem_cons.mp hmem with rfl | hmem2
    · have hz : ((ks.map fun s => if a = s then (1 : Nat) else 0)).sum = 0 := by
        apply List.sum_eq_zero
        intro x hx
        obtain ⟨s, hs, rfl⟩ := List.mem_map.mp hx
        rw [if_neg]
        intro he
        subst he
        exact hk hs
      simp [hz]
    · have hak : a ≠ k := by
        intro he
        subst he
        exact hk hmem2
      simp only [List.map_cons, List.sum_cons, if_neg hak]
      rw [ih hnd hmem2]

theorem sum_map_add_split (l : List String) (f g : String → Nat) :
    (l.map fun s => f s + g s).sum = (l.map f).sum + (l.map g).sum := by
  induction l with
  | nil => simp
  | cons x xs ih =>
    simp only [List.map_cons, List.sum_cons, ih]
    omega

theorem filter_partition_length :
    ∀ (qs : List Query) (ks : List String), ks.Nodup →
      (∀ q ∈ qs, q.«section» ∈ ks) →
      ((ks.map fun s => ((qs.filter fun q => q.«section» = s).length)).sum) = qs.length := by
  intro qs
  induction qs with
  | nil =>
    intro ks _ _
    apply List.sum_eq_zero
    intro x hx
    obtain ⟨s, _, rfl⟩ := List.mem_map.mp hx
    simp
  | cons q rest ih =>
    intro ks hnd hcov
    have hstep : ∀ s, (((q :: rest).filter fun r => r.«section» = s)).length =
        (if q.«section» = s then 1 else 0) + ((rest.filter fun r => r.«section» = s)).length := by
      intro s
      rw [List.filter_cons]
      by_cases h : q.«section» = s
      · simp [h, Nat.add_comm]
      · simp [h]
    have h1 : ((ks.map fun s => (((q :: rest).filter fun r => r.«section» = s)).length).sum) =
        ((ks.map fun s => (if q.«section» = s then 1 else 0) +
          ((rest.filter fun r => r.«section» = s)).length).sum) := by
      congr 1
      exact List.map_congr_left fun s _ => hstep s
    rw [h1, sum_map_add_split, sum_indicator_nodup (q.«section») ks hnd (hcov q (by simp)),
      ih ks hnd (fun r hr => hcov r (by simp [hr]))]
    simp [Nat.add_comm]

/-! ## C10 -/

/-- C10: after a rebuild of the section index, the section keys are
pairwise distinct and each section's list is exactly the loaded records of
that section in insertion order (so every record sits in exactly one
section list); consequently the per-section `queryCount`s reported by
`getSections` sum to the number of loaded records, and each section's
reported `estimatedDuration` is the sum of exactly its members'
`estimatedDuration`s. -/
theorem c10_section_partition (qs : List Query) :
    ((organizeSections qs).map Prod.fst).Nodup ∧
    (∀ p ∈ organizeSections qs, p.2 = qs.filter fun q => q.«section» = p.1) ∧
    (((getSections qs).map fun t => t.2.1).sum = qs.length) ∧
    (∀ t ∈ getSections qs, t.2.2 =
      ((qs.filter fun q => q.«section» = t.1).map Query.estimatedDuration).sum) := by
  obtain ⟨h1, h2, h3⟩ := organizeSections_inv qs [] [] (by simp) (by simp) (by simp)
  have h2' : ∀ p ∈ organizeSections qs, p.2 = qs.filter fun q => q.«section» = p.1 := by
    intro p hp
    simpa using h2 p hp
  refine ⟨h1, h2', ?_, ?_⟩
  · have hm1 : ((getSections qs).map fun t => t.2.1) =
        (organizeSections qs).map fun p => p.2.length := by
      unfold getSections
      rw [List.map_map]
      rfl
    have hm2 : ((organizeSections qs).map fun p => p.2.length) =
        ((organizeSections qs).map Prod.fst).map
          fun s => ((qs.filter fun q => q.«section» = s)).length := by
      rw [List.map_map]
      apply List.map_congr_left
      intro p hp
      simp only [Function.comp]
      rw [h2' p hp]
    rw [hm1, hm2]
    apply filter_partition_length qs _ h1
    intro q hq
    simpa using h3 q (by simpa using hq)
  · intro t ht
    unfold getSections at ht
    obtain ⟨p, hp, rfl⟩ := List.mem_map.mp ht
    simp only
    rw [h2' p hp]

end GlenBerry
